import Mathlib

/-!
# Verification of the Todo microservice query engine

A shallow embedding of the filtering / sorting / pagination logic, the
validation middleware, the model lifecycle hooks, and the error pipeline of
the Todo microservice (`services/todoService.js`, `models/Todo.js`,
`middleware/validation.js`, `middleware/errorHandler.js`,
`validations/todoValidation.js`, `routes/todoRoutes.js`).

Modelling conventions:
* timestamps are natural numbers (milliseconds since epoch);
* row ids are natural numbers drawn from a monotone counter — this models
  `uuidv4()` as a collision-free fresh-id source;
* the SQL layer is modelled as pure list processing: a chain of
  `query.where(...)` calls is a list of boolean predicates applied
  conjunctively, `orderBy` is a merge sort, `limit`/`offset` are
  `List.take` / `List.drop`;
* SQL `LIKE` is modelled by `likeM` below, including `%`, `_` and the
  backslash escape; `NULL` columns never satisfy a `LIKE` or `<=`
  comparison (SQL three-valued logic collapses to `false` in a `WHERE`);
* `JSON.stringify` on an array of strings is modelled by `serializeTags`,
  escaping `"`, `\` and the control characters U+0000–U+001F exactly as
  `JSON.stringify` does (short escapes for backspace, tab, newline,
  formfeed and carriage return; `\u00XX` for the rest).
-/

/-- Priority and status values are kept as strings, exactly as the
JavaScript code compares them. -/
structure Todo where
  id : Nat
  title : String
  description : Option String
  completed : Bool
  priority : String
  dueDate : Option Nat
  /-- stored serialized form (the service runs `JSON.stringify` on the
  tag array before insert), `none` when the column is NULL -/
  tags : Option String
  createdAt : Nat
  updatedAt : Nat
deriving DecidableEq, Repr

/-- Normalized list-query options, the output of `queryParamsSchema`
validation (`validations/todoValidation.js`), consumed by
`todoService.getAllTodos`. -/
structure QueryOptions where
  page : Nat
  limit : Nat
  status : String
  priority : Option String
  sortBy : String
  sortOrder : String
  search : Option String
  tag : Option String
deriving DecidableEq, Repr

/-! ## SQL LIKE -/

/-- Evaluation of a matcher on some suffix of the string: the meaning of
a `%` wildcard, which consumes any prefix of the remaining string. -/
def anySuffix (f : List Char → Bool) : List Char → Bool
  | [] => f []
  | d :: s' => f (d :: s') || anySuffix f s'

/-- SQL `LIKE` pattern matching over character lists: `%` matches any
sequence, `_` matches exactly one character, `\` escapes the next pattern
character, anything else matches itself. -/
def likeM : List Char → List Char → Bool
  | [], s => s.isEmpty
  | '%' :: p, s => anySuffix (likeM p) s
  | '\\' :: e :: p', d :: s' => (e = d) && likeM p' s'
  | '\\' :: _ :: _, [] => false
  | ['\\'], s => s = ['\\']
  | _ :: _, [] => false
  | c :: p, d :: s' => (c = '_' || c = d) && likeM p s'

/-- Case-insensitive `LIKE`: MySQL's default collation compares
case-insensitively; modelled by lowercasing both sides. -/
def likeCI (pat s : List Char) : Bool :=
  likeM (pat.map Char.toLower) (s.map Char.toLower)

/-- The pattern `` `%${search}%` `` built by `getAllTodos` for the search
filter. -/
def searchPattern (search : String) : List Char :=
  '%' :: search.toList ++ ['%']

/-- The pattern `` `%"${tag}"%` `` built by `getAllTodos` for the tag
filter. -/
def tagPattern (tag : String) : List Char :=
  '%' :: '"' :: tag.toList ++ ['"', '%']

/-! ## Tag serialization -/

/-- Hexadecimal digit (lowercase) for `\u00XX` escapes. -/
def hexDigit (n : Nat) : Char :=
  if n < 10 then Char.ofNat (48 + n) else Char.ofNat (87 + n)

/-- JSON string-character escaping as performed by `JSON.stringify`:
quote, backslash, the short control escapes `\b`, `\t`, `\n`, `\f`,
`\r`, and `\u00XX` for every other control character below U+0020. -/
def jsonEscapeChar (c : Char) : List Char :=
  if c = '"' then ['\\', '"']
  else if c = '\\' then ['\\', '\\']
  else if c = Char.ofNat 8 then ['\\', 'b']
  else if c = Char.ofNat 9 then ['\\', 't']
  else if c = Char.ofNat 10 then ['\\', 'n']
  else if c = Char.ofNat 12 then ['\\', 'f']
  else if c = Char.ofNat 13 then ['\\', 'r']
  else if c.toNat < 32 then
    ['\\', 'u', '0', '0', hexDigit (c.toNat / 16), hexDigit (c.toNat % 16)]
  else [c]

/-- Encoding of one string as `JSON.stringify` produces it: surrounding
quotes plus escapes. -/
def jsonEncodeString (s : String) : List Char :=
  '"' :: (s.toList.flatMap jsonEscapeChar) ++ ['"']

/-- Comma-separated concatenation of the encoded elements. -/
def jsonEncodeElems : List String → List Char
  | [] => []
  | [e] => jsonEncodeString e
  | e :: es => jsonEncodeString e ++ ',' :: jsonEncodeElems es

/-- Serialization of an array of strings by `JSON.stringify`, the form
the service stores in the `tags` column (`todoService.createTodo`). -/
def serializeTags (tags : List String) : String :=
  String.mk ('[' :: jsonEncodeElems tags ++ [']'])

/-! ## Filter predicate construction (`todoService.getAllTodos`) -/

/-- The `search` OR-group: `title LIKE %s% OR description LIKE %s%`;
a NULL description never matches. -/
def searchWhere (search : String) (t : Todo) : Bool :=
  likeCI (searchPattern search) t.title.toList ||
    (match t.description with
     | some d => likeCI (searchPattern search) d.toList
     | none => false)

/-- The `tag` predicate: `tags LIKE %"tag"%` over the serialized column;
a NULL tags column never matches. -/
def tagWhere (tag : String) (t : Todo) : Bool :=
  match t.tags with
  | some ser => likeM (tagPattern tag) ser.toList
  | none => false

/-- The chain of `query.where(...)` calls of `getAllTodos`, in source
order; each present parameter contributes one predicate, chained
conjunctively by the query builder. -/
def buildFilters (o : QueryOptions) : List (Todo → Bool) :=
  (if o.status = "completed" then [fun t => t.completed]
   else if o.status = "pending" then [fun t => !t.completed]
   else ([] : List (Todo → Bool)))
  ++ (match o.priority with
      | some p => [fun t => t.priority == p]
      | none => ([] : List (Todo → Bool)))
  ++ (match o.search with
      | some s => [searchWhere s]
      | none => ([] : List (Todo → Bool)))
  ++ (match o.tag with
      | some g => [tagWhere g]
      | none => ([] : List (Todo → Bool)))

/-- A row satisfies a `where` chain iff it satisfies every predicate. -/
def matchesAll (ps : List (Todo → Bool)) (t : Todo) : Bool :=
  ps.all (fun p => p t)

/-! ## Sorting and pagination (`todoService.getAllTodos`) -/

/-- Sort key comparison for `orderBy(sortBy, sortOrder)`: a single-key
comparison on the selected column, ascending or descending. -/
def sortKeyLe (sortBy : String) (a b : Todo) : Bool :=
  if sortBy = "title" then a.title ≤ b.title
  else if sortBy = "priority" then a.priority ≤ b.priority
  else if sortBy = "dueDate" then a.dueDate.getD 0 ≤ b.dueDate.getD 0
  else if sortBy = "updatedAt" then a.updatedAt ≤ b.updatedAt
  else a.createdAt ≤ b.createdAt

/-- The `orderBy` step as a stable merge sort in the requested
direction. -/
def sortRows (sortBy sortOrder : String) (rows : List Todo) : List Todo :=
  if sortOrder = "asc" then rows.mergeSort (sortKeyLe sortBy)
  else rows.mergeSort (fun a b => sortKeyLe sortBy b a)

structure Pagination where
  currentPage : Nat
  totalPages : Nat
  totalItems : Nat
  itemsPerPage : Nat
  hasNextPage : Bool
  hasPrevPage : Bool
deriving DecidableEq, Repr

structure ListResult where
  rows : List Todo
  pagination : Pagination
deriving DecidableEq, Repr

/-- Ceiling division, `Math.ceil(total / limit)` on naturals
(`limit > 0` on every normalized request; for `total = 0` this is `0`,
as in the source). -/
def ceilDiv (total limit : Nat) : Nat :=
  (total + limit - 1) / limit

/-- The list operation `todoService.getAllTodos`: filter, count before
pagination, sort, apply the `(page - 1) * limit` offset window, assemble
metadata. -/
def getAllTodos (o : QueryOptions) (table : List Todo) : ListResult :=
  let filtered := table.filter (matchesAll (buildFilters o))
  let total := filtered.length
  let sorted := sortRows o.sortBy o.sortOrder filtered
  let offset := (o.page - 1) * o.limit
  let data := (sorted.drop offset).take o.limit
  let totalPages := ceilDiv total o.limit
  { rows := data
    pagination :=
      { currentPage := o.page
        totalPages := totalPages
        totalItems := total
        itemsPerPage := o.limit
        hasNextPage := decide (o.page < totalPages)
        hasPrevPage := decide (o.page > 1) } }

/-! ## Validation middleware (`middleware/validation.js` instantiated at
`queryParamsSchema` of `validations/todoValidation.js`)

A raw request property (here: the Express query object) is a list of
key/value string pairs. Joi is run with `abortEarly: false` (collect all
violations), `allowUnknown: false` + `stripUnknown: true` (unknown keys
silently removed), `convert` defaulting to true (numeric strings are
coerced). Each schema field is one checker; the composite collects every
field error. -/

structure FieldError where
  field : String
  message : String
deriving DecidableEq, Repr

/-- Raw request property: key/value pairs, first binding wins (JS object
semantics). -/
def RawReq := List (String × String)

def rawGet (raw : RawReq) (k : String) : Option String :=
  raw.lookup k

/-- Whitespace trimming (`Joi.string().trim()`), over characters. -/
def trimChars (cs : List Char) : List Char :=
  ((cs.dropWhile Char.isWhitespace).reverse.dropWhile Char.isWhitespace).reverse

def trimStr (s : String) : String :=
  String.mk (trimChars s.toList)

/-- Joi number coercion for a nonnegative integer literal; anything else
fails the `number` check. -/
def parseNatAux : List Char → Nat → Option Nat
  | [], acc => some acc
  | c :: cs, acc =>
    if c.isDigit then parseNatAux cs (acc * 10 + (c.toNat - 48)) else none

def parseNat? (s : String) : Option Nat :=
  match s.toList with
  | [] => none
  | c :: cs => parseNatAux (c :: cs) 0

/-- Field checker for `page` (integer, min 1, default 1). -/
def checkPage (raw : RawReq) : Except FieldError Nat :=
  match rawGet raw "page" with
  | none => .ok 1
  | some s =>
    match parseNat? s with
    | none => .error ⟨"page", "Page must be a number"⟩
    | some n => if n < 1 then .error ⟨"page", "Page must be at least 1"⟩ else .ok n

/-- Field checker for `limit` (integer, 1–100, default 10). -/
def checkLimit (raw : RawReq) : Except FieldError Nat :=
  match rawGet raw "limit" with
  | none => .ok 10
  | some s =>
    match parseNat? s with
    | none => .error ⟨"limit", "Limit must be a number"⟩
    | some n =>
      if n < 1 then .error ⟨"limit", "Limit must be at least 1"⟩
      else if n > 100 then .error ⟨"limit", "Limit cannot exceed 100"⟩
      else .ok n

/-- Field checker for `status` (enum, default `all`). -/
def checkStatus (raw : RawReq) : Except FieldError String :=
  match rawGet raw "status" with
  | none => .ok "all"
  | some s =>
    if s = "completed" ∨ s = "pending" ∨ s = "all" then .ok s
    else .error ⟨"status", "Status must be one of: completed, pending, all"⟩

/-- Field checker for `priority` (optional enum). -/
def checkPriorityQ (raw : RawReq) : Except FieldError (Option String) :=
  match rawGet raw "priority" with
  | none => .ok none
  | some s =>
    if s = "low" ∨ s = "medium" ∨ s = "high" then .ok (some s)
    else .error ⟨"priority", "Priority must be one of: low, medium, high"⟩

/-- Field checker for `sortBy` (enum, default `createdAt`). -/
def checkSortBy (raw : RawReq) : Except FieldError String :=
  match rawGet raw "sortBy" with
  | none => .ok "createdAt"
  | some s =>
    if s = "createdAt" ∨ s = "updatedAt" ∨ s = "dueDate" ∨ s = "priority" ∨ s = "title"
    then .ok s
    else .error ⟨"sortBy", "SortBy must be one of: createdAt, updatedAt, dueDate, priority, title"⟩

/-- Field checker for `sortOrder` (enum, default `desc`). -/
def checkSortOrder (raw : RawReq) : Except FieldError String :=
  match rawGet raw "sortOrder" with
  | none => .ok "desc"
  | some s =>
    if s = "asc" ∨ s = "desc" then .ok s
    else .error ⟨"sortOrder", "SortOrder must be either asc or desc"⟩

/-- Field checker for `search` (optional string, trimmed, nonempty,
≤ 100 characters). -/
def checkSearch (raw : RawReq) : Except FieldError (Option String) :=
  match rawGet raw "search" with
  | none => .ok none
  | some s =>
    let t := trimStr s
    if t.toList.length = 0 then .error ⟨"search", "Search term is not allowed to be empty"⟩
    else if t.toList.length > 100 then .error ⟨"search", "Search term cannot exceed 100 characters"⟩
    else .ok (some t)

/-- Field checker for `tag` (optional string, trimmed, nonempty, ≤ 50
characters). -/
def checkTag (raw : RawReq) : Except FieldError (Option String) :=
  match rawGet raw "tag" with
  | none => .ok none
  | some s =>
    let t := trimStr s
    if t.toList.length = 0 then .error ⟨"tag", "Tag is not allowed to be empty"⟩
    else if t.toList.length > 50 then .error ⟨"tag", "Tag cannot exceed 50 characters"⟩
    else .ok (some t)

/-- Errors contributed by one checker result. -/
def errsOf {α : Type} : Except FieldError α → List FieldError
  | .error e => [e]
  | .ok _ => []

/-- The keys `queryParamsSchema` knows about; every other input key is
stripped by `stripUnknown`. -/
def knownQueryKeys : List String :=
  ["page", "limit", "status", "priority", "sortBy", "sortOrder", "search", "tag"]

/-- Validation of the list-query request: run every field checker, and
either build the fully normalized `QueryOptions` (all defaults applied) or
report the collected list of all field violations (`abortEarly: false`). -/
def validateQuery (raw : RawReq) : Except (List FieldError) QueryOptions :=
  match checkPage raw, checkLimit raw, checkStatus raw, checkPriorityQ raw,
        checkSortBy raw, checkSortOrder raw, checkSearch raw, checkTag raw with
  | .ok p, .ok l, .ok st, .ok pr, .ok sb, .ok so, .ok se, .ok tg =>
    .ok ⟨p, l, st, pr, sb, so, se, tg⟩
  | r1, r2, r3, r4, r5, r6, r7, r8 =>
    .error (errsOf r1 ++ errsOf r2 ++ errsOf r3 ++ errsOf r4 ++
            errsOf r5 ++ errsOf r6 ++ errsOf r7 ++ errsOf r8)

/-- Possible outcomes of `GET /todos`: a 200 list result, or the 400
validation response carrying all violations. -/
inductive ListResponse
  | success : ListResult → ListResponse
  | badRequest : List FieldError → ListResponse
deriving DecidableEq, Repr

/-- The route `GET /todos`: `validateQuery` middleware, then the domain
operation `getAllTodos`; a failing request is answered 400 by the
middleware and never reaches the service. -/
def handleListTodos (raw : RawReq) (table : List Todo) : ListResponse :=
  match validateQuery raw with
  | .error es => .badRequest es
  | .ok o => .success (getAllTodos o table)

/-! ## Creation, lifecycle hooks, single-entity and bulk operations
(`models/Todo.js`, `services/todoService.js`) -/

/-- A creation request body after `createTodoSchema` parsing: present /
absent optional fields, prior to defaulting. -/
structure CreatePayload where
  title : String
  description : Option String
  priority : Option String
  dueDate : Option Nat
  tags : Option (List String)
  completed : Option Bool
deriving DecidableEq, Repr

/-- Joi defaulting on a successfully validated creation body:
`priority` defaults to `medium`, `completed` defaults to `false`
(`createTodoSchema`). -/
def applyCreateDefaults (p : CreatePayload) : CreatePayload :=
  { p with
    priority := some (p.priority.getD "medium")
    completed := some (p.completed.getD false) }

/-- The persistent store: the `todos` table plus the fresh-id source
(model of `uuidv4()`, see the file header). -/
structure DB where
  rows : List Todo
  nextId : Nat
deriving DecidableEq, Repr

/-- Store well-formedness: every row id was produced by the fresh-id
source. -/
def dbWf (db : DB) : Prop :=
  ∀ r ∈ db.rows, r.id < db.nextId

/-- Lifecycle hook run by the model on insert: assign a fresh id, set
both timestamps to now (`Todo.$beforeInsert`). -/
def beforeInsert (now : Nat) (db : DB) (t : Todo) : Todo :=
  { t with id := db.nextId, createdAt := now, updatedAt := now }

/-- Lifecycle hook run by the model on patch: refresh `updatedAt`
(`Todo.$beforeUpdate`). -/
def beforeUpdate (now : Nat) (t : Todo) : Todo :=
  { t with updatedAt := now }

/-- The service operation `todoService.createTodo` on a validated body:
stringify the tag array, insert (running `$beforeInsert`), return the
created row. The `completed`/`priority` fallbacks mirror the model's
`jsonSchema` defaults and coincide with the Joi defaults on the
validated path. -/
def createTodoService (p : CreatePayload) (now : Nat) (db : DB) : Todo × DB :=
  let t0 : Todo :=
    { id := 0
      title := p.title
      description := p.description
      completed := p.completed.getD false
      priority := p.priority.getD "medium"
      dueDate := p.dueDate
      tags := p.tags.map serializeTags
      createdAt := 0
      updatedAt := 0 }
  let t := beforeInsert now db t0
  (t, { rows := db.rows ++ [t], nextId := db.nextId + 1 })

/-- Objection's `findById` over the table. -/
def findById (id : Nat) (rows : List Todo) : Option Todo :=
  rows.find? (fun t => t.id == id)

/-- Errors thrown by the service layer (`ApiError` of
`middleware/errorHandler.js`, as used by `todoService`). -/
structure ApiError where
  statusCode : Nat
  message : String
deriving DecidableEq, Repr

/-- Patch every row matching the id (running `$beforeUpdate`), as
`patchAndFetchById` does. -/
def patchRows (id : Nat) (f : Todo → Todo) (now : Nat) (rows : List Todo) : List Todo :=
  rows.map (fun t => if t.id == id then beforeUpdate now (f t) else t)

/-- The service operation `todoService.toggleTodoStatus`: fetch, 404 when
absent (no write), otherwise patch `completed` to the negation of the
fetched value and refresh `updatedAt`. -/
def toggleTodoStatus (id : Nat) (now : Nat) (db : DB) : Except ApiError Todo × DB :=
  match findById id db.rows with
  | none => (.error ⟨404, "Todo not found"⟩, db)
  | some t =>
    let u := beforeUpdate now { t with completed := !t.completed }
    (.ok u,
     { db with rows := patchRows id (fun r => { r with completed := !t.completed }) now db.rows })

/-- An update request body after `updateTodoSchema` parsing. -/
structure UpdatePayload where
  title : Option String
  description : Option String
  priority : Option String
  dueDate : Option Nat
  tags : Option (List String)
  completed : Option Bool
deriving DecidableEq, Repr

/-- Whether at least one updatable field is present (`.min(1)` of
`updateTodoSchema`). -/
def updateHasField (u : UpdatePayload) : Bool :=
  u.title.isSome || u.description.isSome || u.priority.isSome ||
    u.dueDate.isSome || u.tags.isSome || u.completed.isSome

/-- Field-level violations of `updateTodoSchema` (all fields optional;
trimmed length bounds, enums, tag-array bounds, and the at-least-one-field
rule). -/
def validateUpdate (u : UpdatePayload) : List FieldError :=
  (match u.title with
   | some s =>
     if (trimStr s).toList.length < 1 then [⟨"title", "Title must be at least 1 character long"⟩]
     else if (trimStr s).toList.length > 255 then [⟨"title", "Title cannot exceed 255 characters"⟩]
     else []
   | none => [])
  ++ (match u.description with
      | some s =>
        if (trimStr s).toList.length > 1000 then [⟨"description", "Description cannot exceed 1000 characters"⟩]
        else []
      | none => [])
  ++ (match u.priority with
      | some s =>
        if s = "low" ∨ s = "medium" ∨ s = "high" then []
        else [⟨"priority", "Priority must be one of: low, medium, high"⟩]
      | none => [])
  ++ (match u.tags with
      | some ts =>
        (if ts.length > 10 then [⟨"tags", "Cannot have more than 10 tags"⟩] else [])
        ++ (if ts.any (fun s => (trimStr s).toList.length < 1) then [⟨"tags", "Tag must be at least 1 character long"⟩] else [])
        ++ (if ts.any (fun s => (trimStr s).toList.length > 50) then [⟨"tags", "Tag cannot exceed 50 characters"⟩] else [])
      | none => [])
  ++ (if updateHasField u then [] else [⟨"updateData", "At least one field must be provided for update"⟩])

/-- Validation of a bulk-update body (`bulkUpdateSchema` of
`routes/todoRoutes.js`): 1–50 ids, update payload under the single-entity
update contract; all violations collected. -/
def validateBulkUpdate (ids : List Nat) (u : UpdatePayload) : Except (List FieldError) Unit :=
  let es := (if ids.length < 1 then [⟨"ids", "At least one ID is required"⟩] else [])
    ++ (if ids.length > 50 then [⟨"ids", "Cannot update more than 50 todos at once"⟩] else [])
    ++ validateUpdate u
  if es = [] then .ok () else .error es

/-- Validation of a bulk-delete body (`bulkDeleteSchema`): 1–50 ids. -/
def validateBulkDelete (ids : List Nat) : Except (List FieldError) Unit :=
  let es := (if ids.length < 1 then [⟨"ids", "At least one ID is required"⟩] else [])
    ++ (if ids.length > 50 then [⟨"ids", "Cannot delete more than 50 todos at once"⟩] else [])
  if es = [] then .ok () else .error es

/-- Application of a partial update to a row (`patch`): only provided
fields change; a provided tag array is stored serialized. -/
def applyPatch (u : UpdatePayload) (t : Todo) : Todo :=
  { t with
    title := u.title.getD t.title
    description := match u.description with | some d => some d | none => t.description
    priority := u.priority.getD t.priority
    dueDate := match u.dueDate with | some d => some d | none => t.dueDate
    tags := match u.tags with | some ts => some (serializeTags ts) | none => t.tags
    completed := u.completed.getD t.completed }

/-- The service operation `todoService.bulkUpdateTodos`:
`patch(updateData).whereIn('id', ids)` — apply the same patch to every
matching row, return the count of rows modified. -/
def bulkUpdateTodos (ids : List Nat) (u : UpdatePayload) (now : Nat) (db : DB) : Nat × DB :=
  let count := (db.rows.filter (fun t => ids.contains t.id)).length
  let rows' := db.rows.map (fun t =>
    if ids.contains t.id then beforeUpdate now (applyPatch u t) else t)
  (count, { db with rows := rows' })

/-- The service operation `todoService.bulkDeleteTodos`:
`delete().whereIn('id', ids)` — remove every matching row, return the
count removed. -/
def bulkDeleteTodos (ids : List Nat) (db : DB) : Nat × DB :=
  let remaining := db.rows.filter (fun t => !ids.contains t.id)
  (db.rows.length - remaining.length, { db with rows := remaining })

/-! ## Due-soon query (`Todo.findDueSoon`, `todoService.getTodosDueSoon`) -/

def msPerDay : Nat := 86400000

/-- The model query `Todo.findDueSoon(days)`:
`dueDate <= now + days AND completed = false`, ordered by `dueDate`
ascending; a NULL `dueDate` never satisfies the `<=` comparison. -/
def findDueSoon (days now : Nat) (rows : List Todo) : List Todo :=
  (rows.filter (fun t =>
      (match t.dueDate with
       | some d => decide (d ≤ now + days * msPerDay)
       | none => false)
      && !t.completed)).mergeSort
    (fun a b => decide (a.dueDate.getD 0 ≤ b.dueDate.getD 0))

/-- The service pass-through `todoService.getTodosDueSoon`. -/
def getTodosDueSoon (days now : Nat) (db : DB) : List Todo :=
  findDueSoon days now db.rows

/-! ## Error pipeline (`middleware/errorHandler.js`) -/

/-- A JavaScript error object as the error middleware inspects it:
`name`, optional driver fields `code`/`errno`, the `statusCode` an
`ApiError` carries (absent on non-`ApiError` errors), and `message`. -/
structure JsErr where
  name : String
  code : Option String
  errno : Option Nat
  statusCode : Option Nat
  message : String
deriving DecidableEq, Repr

/-- Construction of an `ApiError` as a JavaScript error object: the class
extends `Error` without setting `name`, so `name = "Error"`; no driver
fields. -/
def mkApiError (status : Nat) (msg : String) : JsErr :=
  { name := "Error", code := none, errno := none, statusCode := some status, message := msg }

/-- The middleware's `handleError`: each branch tests the ORIGINAL error
`err` (as in the source) and, when it fires, replaces the accumulator with
a fresh `ApiError`. -/
def handleError (err : JsErr) : JsErr :=
  let error := err
  let error := if err.name = "ValidationError" then mkApiError 400 "Validation Error" else error
  let error :=
    if err.code = some "23000" ∨ err.errno = some 1062 then
      mkApiError 400 "Duplicate field value entered"
    else error
  let error :=
    if err.code = some "ECONNREFUSED" ∨ err.code = some "ENOTFOUND" then
      mkApiError 503 "Database connection failed"
    else error
  let error := if err.name = "JsonWebTokenError" then mkApiError 401 "Invalid token" else error
  let error := if err.name = "TokenExpiredError" then mkApiError 401 "Token expired" else error
  error

/-- The status-to-code table `getErrorCode`. -/
def getErrorCode (statusCode : Nat) : String :=
  if statusCode = 400 then "BAD_REQUEST"
  else if statusCode = 401 then "UNAUTHORIZED"
  else if statusCode = 403 then "FORBIDDEN"
  else if statusCode = 404 then "NOT_FOUND"
  else if statusCode = 409 then "CONFLICT"
  else if statusCode = 422 then "UNPROCESSABLE_ENTITY"
  else if statusCode = 429 then "TOO_MANY_REQUESTS"
  else if statusCode = 500 then "INTERNAL_SERVER_ERROR"
  else if statusCode = 502 then "BAD_GATEWAY"
  else if statusCode = 503 then "SERVICE_UNAVAILABLE"
  else if statusCode = 504 then "GATEWAY_TIMEOUT"
  else "UNKNOWN_ERROR"

/-- The JSON error response body sent to the caller. -/
structure ErrResponse where
  status : Nat
  code : String
  message : String
deriving DecidableEq, Repr

/-- The global error middleware `errorHandler`: convert via
`handleError`, fall back to a generic 500 when no status code is present,
send `{code, message}`. -/
def errorMiddleware (err : JsErr) : ErrResponse :=
  let error := handleError err
  match error.statusCode with
  | none => { status := 500, code := getErrorCode 500, message := "Something went wrong" }
  | some sc => { status := sc, code := getErrorCode sc, message := error.message }

/-- The catch-all of `todoService.createTodo`: any failure of the insert
is re-thrown as `ApiError(500, 'Failed to create todo')`. -/
def createTodoCatch (insertResult : Except JsErr Todo) : Except JsErr Todo :=
  match insertResult with
  | .ok t => .ok t
  | .error _ => .error (mkApiError 500 "Failed to create todo")

/-- The full `POST /todos` error path: the service catch-all, then
`asyncHandler` forwarding the thrown error to the error middleware. -/
def createTodoRequest (insertResult : Except JsErr Todo) : Except ErrResponse Todo :=
  match createTodoCatch insertResult with
  | .ok t => .ok t
  | .error e => .error (errorMiddleware e)

/-- A MySQL duplicate-key (uniqueness violation) error as the driver
raises it: sqlState 23000, errno 1062, no `statusCode`. -/
def duplicateKeyError (msg : String) : JsErr :=
  { name := "Error", code := some "23000", errno := some 1062, statusCode := none, message := msg }

/-! ## Spec-side notions

Executable substring checking and the spec's wording of the search
predicate, used to compare the implementation's `LIKE`-based predicates
against the specification. -/

/-- Decision of whether `n` is a prefix of `h`. -/
def hasPrefixChars : List Char → List Char → Bool
  | [], _ => true
  | _ :: _, [] => false
  | c :: n, d :: h => c = d && hasPrefixChars n h

/-- Decision of whether `n` occurs as a contiguous substring of `h`. -/
def hasSubChars (n : List Char) : List Char → Bool
  | [] => n.isEmpty
  | d :: h => hasPrefixChars n (d :: h) || hasSubChars n h

/-- The search predicate as the spec words it: the search string occurs
as a case-insensitive substring of the title or of the description. -/
def specSearchMatches (search : String) (t : Todo) : Bool :=
  let s := search.toList.map Char.toLower
  hasSubChars s (t.title.toList.map Char.toLower) ||
    (match t.description with
     | some d => hasSubChars s (d.toList.map Char.toLower)
     | none => false)

/-- A literal `LIKE`-pattern character: not a wildcard, not the escape. -/
def litChar (c : Char) : Bool :=
  !(c = '%' || c = '_' || c = '\\')

/-- A pattern fragment that `LIKE` treats literally. -/
def isLit (cs : List Char) : Bool :=
  cs.all litChar

/-- A character that `JSON.stringify` emits unescaped: not a quote, not
a backslash, not a control character. -/
def noEscChar (c : Char) : Bool :=
  !(c = '"' || c = '\\' || c.toNat < 32)

/-- A tag-query character that is literal for `LIKE` and unambiguous in
the serialized JSON array (no wildcard, escape, quote, separator or
control character). -/
def plainTagChar (c : Char) : Bool :=
  !(c = '%' || c = '_' || c = '\\' || c = '"' || c = ',' || c.toNat < 32)

/-! ## LIKE matching lemmas -/


/-! ## LIKE matching lemmas -/

theorem anySuffix_iff (f : List Char → Bool) (u : List Char) :
    anySuffix f u = true ↔ ∃ pre v, u = pre ++ v ∧ f v = true := by
  induction u with
  | nil =>
    simp only [anySuffix]
    constructor
    · intro h
      exact ⟨[], [], rfl, h⟩
    · rintro ⟨pre, v, huv, hv⟩
      rw [eq_comm, List.append_eq_nil] at huv
      obtain ⟨rfl, rfl⟩ := huv
      exact hv
  | cons d u' ih =>
    simp only [anySuffix, Bool.or_eq_true, ih]
    constructor
    · rintro (h | ⟨pre, v, rfl, hv⟩)
      · exact ⟨[], d :: u', rfl, h⟩
      · exact ⟨d :: pre, v, rfl, hv⟩
    · rintro ⟨pre, v, huv, hv⟩
      cases pre with
      | nil =>
        simp only [List.nil_append] at huv
        exact Or.inl (huv ▸ hv)
      | cons c pre' =>
        simp only [List.cons_append, List.cons.injEq] at huv
        obtain ⟨rfl, rfl⟩ := huv
        exact Or.inr ⟨pre', v, rfl, hv⟩

theorem likeM_lit_percent (s : List Char) (hs : isLit s = true) (u : List Char) :
    likeM (s ++ ['%']) u = true ↔ ∃ post, u = s ++ post := by
  induction s generalizing u with
  | nil =>
    simp only [List.nil_append]
    constructor
    · intro _
      exact ⟨u, rfl⟩
    · intro _
      show likeM ['%'] u = true
      have : likeM ['%'] u = anySuffix (likeM []) u := by simp [likeM]
      rw [this, anySuffix_iff]
      exact ⟨u, [], by simp, by simp [likeM]⟩
  | cons c s' ih =>
    simp only [isLit, List.all_cons, Bool.and_eq_true] at hs
    obtain ⟨hc, hs'⟩ := hs
    have hcp : ¬ c = '%' := fun h => by subst h; simp [litChar] at hc
    have hcu : ¬ c = '_' := fun h => by subst h; simp [litChar] at hc
    have hce : ¬ c = '\\' := fun h => by subst h; simp [litChar] at hc
    cases u with
    | nil =>
      simp only [List.cons_append]
      constructor
      · intro h
        rw [show likeM (c :: (s' ++ ['%'])) [] = false by simp [likeM, hcp, hce]] at h
        exact absurd h (by simp)
      · rintro ⟨post, hpost⟩
        exact absurd hpost (by simp)
    | cons d u' =>
      simp only [List.cons_append]
      rw [show likeM (c :: (s' ++ ['%'])) (d :: u') = ((c = '_' || c = d) && likeM (s' ++ ['%']) u') by
        simp [likeM, hcp, hce]]
      simp only [Bool.and_eq_true, Bool.or_eq_true, decide_eq_true_eq, hcu, false_or,
        ih hs' u']
      constructor
      · rintro ⟨rfl, post, rfl⟩
        exact ⟨post, rfl⟩
      · rintro ⟨post, hpost⟩
        simp only [List.cons_append, List.cons.injEq] at hpost
        obtain ⟨rfl, rfl⟩ := hpost
        exact ⟨rfl, post, rfl⟩

theorem likeM_wrap (s : List Char) (hs : isLit s = true) (u : List Char) :
    likeM ('%' :: (s ++ ['%'])) u = true ↔ ∃ pre post, u = pre ++ s ++ post := by
  rw [show likeM ('%' :: (s ++ ['%'])) u = anySuffix (likeM (s ++ ['%'])) u by simp [likeM]]
  rw [anySuffix_iff]
  constructor
  · rintro ⟨pre, v, rfl, hv⟩
    obtain ⟨post, rfl⟩ := (likeM_lit_percent s hs v).1 hv
    exact ⟨pre, post, by simp⟩
  · rintro ⟨pre, post, rfl⟩
    exact ⟨pre, s ++ post, by simp, (likeM_lit_percent s hs _).2 ⟨post, rfl⟩⟩

theorem hasPrefixChars_iff (n h : List Char) :
    hasPrefixChars n h = true ↔ ∃ post, h = n ++ post := by
  induction n generalizing h with
  | nil =>
    simp [hasPrefixChars]
  | cons c n' ih =>
    cases h with
    | nil =>
      simp [hasPrefixChars]
    | cons d h' =>
      simp only [hasPrefixChars, Bool.and_eq_true, decide_eq_true_eq, ih,
        List.cons_append, List.cons.injEq]
      constructor
      · rintro ⟨rfl, post, rfl⟩
        exact ⟨post, rfl, rfl⟩
      · rintro ⟨post, rfl, rfl⟩
        exact ⟨rfl, post, rfl⟩

theorem hasSubChars_iff (n h : List Char) :
    hasSubChars n h = true ↔ ∃ pre post, h = pre ++ n ++ post := by
  induction h with
  | nil =>
    simp only [hasSubChars, List.isEmpty_iff]
    constructor
    · rintro rfl
      exact ⟨[], [], rfl⟩
    · rintro ⟨pre, post, hp⟩
      rw [eq_comm] at hp
      simp only [List.append_assoc, List.append_eq_nil] at hp
      exact hp.2.1
  | cons d h' ih =>
    simp only [hasSubChars, Bool.or_eq_true, hasPrefixChars_iff, ih]
    constructor
    · rintro (⟨post, hp⟩ | ⟨pre, post, rfl⟩)
      · exact ⟨[], post, by simpa using hp⟩
      · exact ⟨d :: pre, post, by simp⟩
    · rintro ⟨pre, post, hp⟩
      cases pre with
      | nil =>
        exact Or.inl ⟨post, by simpa using hp⟩
      | cons c pre' =>
        simp only [List.cons_append, List.append_assoc, List.cons.injEq] at hp
        obtain ⟨rfl, hp⟩ := hp
        exact Or.inr ⟨pre', post, by simpa [List.append_assoc] using hp⟩

/-- Lowercasing never turns an ordinary character into a `LIKE`
metacharacter. -/
theorem litChar_toLower (c : Char) (hc : litChar c = true) :
    litChar c.toLower = true := by
  have h : ¬(c = '%' ∨ c = '_' ∨ c = '\\') := by
    rintro (rfl | rfl | rfl) <;> simp [litChar] at hc
  have h' : ¬(c.toLower = '%' ∨ c.toLower = '_' ∨ c.toLower = '\\') := by
    by_cases hr : c.toNat ≥ 65 ∧ c.toNat ≤ 90
    · have hlow : c.toLower = Char.ofNat (c.toNat + 32) := by
        unfold Char.toLower
        simp [hr]
      have hv : (c.toNat + 32).isValidChar := Or.inl (by omega)
      have ht : (Char.ofNat (c.toNat + 32)).toNat = c.toNat + 32 := by
        unfold Char.ofNat
        rw [dif_pos hv]
        simp [Char.ofNatAux, Char.toNat, UInt32.toNat, BitVec.toNat_ofNatLt]
      rw [hlow]
      rintro (hc' | hc' | hc') <;> rw [hc'] at ht <;>
        first
        | (have h37 : ('%').toNat = 37 := by decide
           rw [h37] at ht; omega)
        | (have h95 : ('_').toNat = 95 := by decide
           rw [h95] at ht; omega)
        | (have h92 : ('\\').toNat = 92 := by decide
           rw [h92] at ht; omega)
    · have hlow : c.toLower = c := by
        unfold Char.toLower
        simp [hr]
      rw [hlow]
      exact h
  cases hlt : litChar c.toLower with
  | true => rfl
  | false =>
    exfalso
    apply h'
    have hlt' : ¬c.toLower = '%' → ¬c.toLower = '_' → c.toLower = '\\' := by
      simpa [litChar, Bool.or_eq_true, decide_eq_true_eq] using hlt
    by_cases h1 : c.toLower = '%'
    · exact Or.inl h1
    by_cases h2 : c.toLower = '_'
    · exact Or.inr (Or.inl h2)
    exact Or.inr (Or.inr (hlt' h1 h2))

theorem isLit_map_toLower (cs : List Char) (h : isLit cs = true) :
    isLit (cs.map Char.toLower) = true := by
  simp only [isLit, List.all_map, List.all_eq_true] at *
  intro c hc
  exact litChar_toLower c (h c hc)

/-! ## Search predicate versus the spec's substring wording -/

theorem likeCI_searchPattern (s : String) (hs : isLit s.toList = true) (str : List Char) :
    likeCI (searchPattern s) str
      = hasSubChars (s.toList.map Char.toLower) (str.map Char.toLower) := by
  rw [Bool.eq_iff_iff, hasSubChars_iff]
  unfold likeCI searchPattern
  have hmap : (('%' :: s.toList ++ ['%']).map Char.toLower)
      = '%' :: (s.toList.map Char.toLower ++ ['%']) := by
    simp [List.map_append, show Char.toLower '%' = '%' from by decide]
  rw [hmap]
  exact likeM_wrap _ (isLit_map_toLower _ hs) _

theorem searchWhere_eq_spec (s : String) (t : Todo) (hs : isLit s.toList = true) :
    searchWhere s t = specSearchMatches s t := by
  unfold searchWhere specSearchMatches
  cases t.description with
  | none => simp [likeCI_searchPattern s hs]
  | some d => simp [likeCI_searchPattern s hs]

/-! ## Filter chain characterization -/

theorem statusSeg_iff (o : QueryOptions) (t : Todo) :
    ((if o.status = "completed" then ([fun t => t.completed] : List (Todo → Bool))
      else if o.status = "pending" then ([fun t => !t.completed] : List (Todo → Bool))
      else ([] : List (Todo → Bool))).all (fun p => p t) = true) ↔
      ((o.status = "completed" → t.completed = true) ∧
       (o.status = "pending" → t.completed = false)) := by
  by_cases h1 : o.status = "completed"
  · have h2 : ¬ o.status = "pending" := by
      rw [h1]
      decide
    simp [h1, h2]
  · by_cases h2 : o.status = "pending"
    · simp [h1, h2]
    · simp [h1, h2]

theorem prioSeg_iff (o : QueryOptions) (t : Todo) :
    ((match o.priority with
      | some p => ([fun t => t.priority == p] : List (Todo → Bool))
      | none => ([] : List (Todo → Bool))).all (fun p => p t) = true) ↔
      (∀ p, o.priority = some p → t.priority = p) := by
  cases o.priority with
  | none => simp
  | some p => simp

theorem searchSeg_iff (o : QueryOptions) (t : Todo) :
    ((match o.search with
      | some s => ([searchWhere s] : List (Todo → Bool))
      | none => ([] : List (Todo → Bool))).all (fun p => p t) = true) ↔
      (∀ s, o.search = some s → searchWhere s t = true) := by
  cases o.search with
  | none => simp
  | some s => simp

theorem tagSeg_iff (o : QueryOptions) (t : Todo) :
    ((match o.tag with
      | some g => ([tagWhere g] : List (Todo → Bool))
      | none => ([] : List (Todo → Bool))).all (fun p => p t) = true) ↔
      (∀ g, o.tag = some g → tagWhere g t = true) := by
  cases o.tag with
  | none => simp
  | some g => simp

/-- Characterization of the conjunctive `where` chain built by
`getAllTodos`: a row passes exactly when it passes the predicate of every
present parameter. -/
theorem matchesAll_buildFilters (o : QueryOptions) (t : Todo) :
    matchesAll (buildFilters o) t = true ↔
      ((o.status = "completed" → t.completed = true) ∧
       (o.status = "pending" → t.completed = false) ∧
       (∀ p, o.priority = some p → t.priority = p) ∧
       (∀ s, o.search = some s → searchWhere s t = true) ∧
       (∀ g, o.tag = some g → tagWhere g t = true)) := by
  unfold matchesAll buildFilters
  rw [List.all_append, List.all_append, List.all_append]
  simp only [Bool.and_eq_true]
  constructor
  · rintro ⟨⟨⟨hst, hpr⟩, hse⟩, htg⟩
    obtain ⟨hc, hp⟩ := (statusSeg_iff o t).1 hst
    exact ⟨hc, hp, (prioSeg_iff o t).1 hpr, (searchSeg_iff o t).1 hse, (tagSeg_iff o t).1 htg⟩
  · rintro ⟨hc, hp, hpr, hse, htg⟩
    exact ⟨⟨⟨(statusSeg_iff o t).2 ⟨hc, hp⟩, (prioSeg_iff o t).2 hpr⟩,
      (searchSeg_iff o t).2 hse⟩, (tagSeg_iff o t).2 htg⟩

/-! ## Pagination arithmetic -/

theorem ceilDiv_le_total (total limit : Nat) (h : 1 ≤ limit) :
    total ≤ ceilDiv total limit * limit := by
  have hdm := Nat.div_add_mod (total + limit - 1) limit
  have hml : (total + limit - 1) % limit < limit := Nat.mod_lt _ (by omega)
  unfold ceilDiv
  set q := (total + limit - 1) / limit with hq
  set r := (total + limit - 1) % limit with hr
  rw [mul_comm]
  omega

theorem ceilDiv_min (total limit m : Nat) (h : 1 ≤ limit) (hm : total ≤ m * limit) :
    ceilDiv total limit ≤ m := by
  unfold ceilDiv
  rw [Nat.div_le_iff_le_mul_add_pred (by omega)]
  rw [mul_comm] at hm
  omega

theorem length_sortRows (sortBy sortOrder : String) (rows : List Todo) :
    (sortRows sortBy sortOrder rows).length = rows.length := by
  unfold sortRows
  by_cases h : sortOrder = "asc"
  · simp [h, List.length_mergeSort]
  · simp [h, List.length_mergeSort]

theorem mem_sortRows (sortBy sortOrder : String) (rows : List Todo) (t : Todo) :
    t ∈ sortRows sortBy sortOrder rows ↔ t ∈ rows := by
  unfold sortRows
  by_cases h : sortOrder = "asc"
  · simp [h, List.mem_mergeSort]
  · simp [h, List.mem_mergeSort]

/-- C1: for every normalized list-query request (page ≥ 1, 1 ≤ limit ≤ 100)
and every row set, the list operation fetches the page window at offset
`(page - 1) * limit` of size `limit` from the sorted filtered rows, and
returns pagination metadata with `totalPages = ceil(totalItems / itemsPerPage)`
(characterized as the least `m` with `totalItems ≤ m * limit`),
`hasNextPage = currentPage < totalPages`, `hasPrevPage = currentPage > 1`;
requesting a page past the last page returns an empty data array while
`totalItems` still reflects the full filtered row set, and when zero rows
match, `totalPages = 0` and `hasNextPage = false`. -/
theorem claim_C1 (o : QueryOptions) (table : List Todo)
    (hp : 1 ≤ o.page) (hl : 1 ≤ o.limit) (hl100 : o.limit ≤ 100) :
    (getAllTodos o table).rows
        = ((sortRows o.sortBy o.sortOrder (table.filter (matchesAll (buildFilters o)))).drop
            ((o.page - 1) * o.limit)).take o.limit
    ∧ (getAllTodos o table).pagination.currentPage = o.page
    ∧ (getAllTodos o table).pagination.itemsPerPage = o.limit
    ∧ (getAllTodos o table).pagination.totalItems
        = (table.filter (matchesAll (buildFilters o))).length
    ∧ (table.filter (matchesAll (buildFilters o))).length
        ≤ (getAllTodos o table).pagination.totalPages * o.limit
    ∧ (∀ m : Nat, (table.filter (matchesAll (buildFilters o))).length ≤ m * o.limit →
        (getAllTodos o table).pagination.totalPages ≤ m)
    ∧ ((getAllTodos o table).pagination.hasNextPage = true
        ↔ o.page < (getAllTodos o table).pagination.totalPages)
    ∧ ((getAllTodos o table).pagination.hasPrevPage = true ↔ 1 < o.page)
    ∧ ((getAllTodos o table).pagination.totalPages < o.page → (getAllTodos o table).rows = [])
    ∧ (table.filter (matchesAll (buildFilters o)) = [] →
        (getAllTodos o table).pagination.totalPages = 0
          ∧ (getAllTodos o table).pagination.hasNextPage = false) := by
  refine ⟨rfl, rfl, rfl, rfl, ?_, ?_, ?_, ?_, ?_, ?_⟩
  · exact ceilDiv_le_total _ _ hl
  · intro m hm
    exact ceilDiv_min _ _ _ hl hm
  · exact decide_eq_true_iff
  · exact decide_eq_true_iff
  · intro hlt
    have hlen : (sortRows o.sortBy o.sortOrder
        (table.filter (matchesAll (buildFilters o)))).length ≤ (o.page - 1) * o.limit := by
      rw [length_sortRows]
      calc (table.filter (matchesAll (buildFilters o))).length
          ≤ ceilDiv (table.filter (matchesAll (buildFilters o))).length o.limit * o.limit :=
            ceilDiv_le_total _ _ hl
        _ ≤ (o.page - 1) * o.limit := by
            apply Nat.mul_le_mul_right
            have : (getAllTodos o table).pagination.totalPages
                = ceilDiv (table.filter (matchesAll (buildFilters o))).length o.limit := rfl
            omega
    show ((sortRows o.sortBy o.sortOrder (table.filter (matchesAll (buildFilters o)))).drop
        ((o.page - 1) * o.limit)).take o.limit = []
    rw [List.drop_eq_nil_of_le hlen, List.take_nil]
  · intro hF
    have h0 : (table.filter (matchesAll (buildFilters o))).length = 0 := by
      rw [hF]; rfl
    constructor
    · show ceilDiv (table.filter (matchesAll (buildFilters o))).length o.limit = 0
      rw [h0]
      unfold ceilDiv
      exact Nat.div_eq_of_lt (by omega)
    · show decide (o.page < ceilDiv (table.filter (matchesAll (buildFilters o))).length o.limit)
        = false
      rw [h0]
      have : ceilDiv 0 o.limit = 0 := by
        unfold ceilDiv
        exact Nat.div_eq_of_lt (by omega)
      rw [this]
      simp

/-- Witness for C1 at a concrete beyond-last-page request over an empty
table. -/
theorem claim_C1_witness :
    (getAllTodos ⟨2, 3, "all", none, "createdAt", "desc", none, none⟩ []).pagination.totalPages = 0
    ∧ (getAllTodos ⟨2, 3, "all", none, "createdAt", "desc", none, none⟩ []).rows = [] := by
  have h := claim_C1 ⟨2, 3, "all", none, "createdAt", "desc", none, none⟩ []
    (by decide) (by decide) (by decide)
  have hzero := (h.2.2.2.2.2.2.2.2.2) rfl
  refine ⟨hzero.1, ?_⟩
  apply h.2.2.2.2.2.2.2.2.1
  rw [hzero.1]
  decide

/-- C2: a row passes the filter of a normalized list-query request exactly
when it satisfies the conjunction of the predicates of the parameters
present (`status = completed` contributes `completed = true`, `pending`
contributes `completed = false`, `all` contributes nothing; a present
priority contributes equality on priority); when no parameter contributes
a predicate, every row of the table is matched. -/
theorem claim_C2 (o : QueryOptions) (table : List Todo) (t : Todo) :
    ((t ∈ table.filter (matchesAll (buildFilters o))) ↔
      (t ∈ table
        ∧ (o.status = "completed" → t.completed = true)
        ∧ (o.status = "pending" → t.completed = false)
        ∧ (∀ p, o.priority = some p → t.priority = p)
        ∧ (∀ s, o.search = some s → searchWhere s t = true)
        ∧ (∀ g, o.tag = some g → tagWhere g t = true)))
    ∧ (o.status ≠ "completed" → o.status ≠ "pending" → o.priority = none →
        o.search = none → o.tag = none →
        table.filter (matchesAll (buildFilters o)) = table) := by
  constructor
  · rw [List.mem_filter, matchesAll_buildFilters]
  · intro h1 h2 h3 h4 h5
    apply List.filter_eq_self.2
    intro a _
    rw [matchesAll_buildFilters]
    refine ⟨fun hc => absurd hc h1, fun hc => absurd hc h2, ?_, ?_, ?_⟩
    · intro p hp
      rw [h3] at hp
      exact absurd hp (by simp)
    · intro s hs
      rw [h4] at hs
      exact absurd hs (by simp)
    · intro g hg
      rw [h5] at hg
      exact absurd hg (by simp)

/-- Counterexample to C3 as stated: the search string `a%b` is not a
substring of the title `axxb` (nor of the absent description), yet the
row satisfies the search predicate, because `%` acts as a LIKE wildcard
inside the interpolated pattern. -/
theorem claim_C3_counterexample :
    searchWhere "a%b" ⟨1, "axxb", none, false, "medium", none, none, 0, 0⟩ = true
    ∧ specSearchMatches "a%b" ⟨1, "axxb", none, false, "medium", none, none, 0, 0⟩ = false := by
  decide

/-- C3 amended: for a search string free of LIKE metacharacters
(`%`, `_`, `\`), a row satisfies the search predicate iff the search
occurs as a case-insensitive substring of its title or description, and
this OR-group is combined by AND with the other filter predicates. -/
theorem claim_C3_amended (o : QueryOptions) (s : String) (t : Todo)
    (hs : o.search = some s) (hlit : isLit s.toList = true) :
    (searchWhere s t = specSearchMatches s t)
    ∧ (matchesAll (buildFilters o) t = true ↔
        ((o.status = "completed" → t.completed = true)
          ∧ (o.status = "pending" → t.completed = false)
          ∧ (∀ p, o.priority = some p → t.priority = p)
          ∧ specSearchMatches s t = true
          ∧ (∀ g, o.tag = some g → tagWhere g t = true))) := by
  have heq := searchWhere_eq_spec s t hlit
  refine ⟨heq, ?_⟩
  rw [matchesAll_buildFilters]
  constructor
  · rintro ⟨h1, h2, h3, h4, h5⟩
    exact ⟨h1, h2, h3, heq ▸ h4 s hs, h5⟩
  · rintro ⟨h1, h2, h3, h4, h5⟩
    refine ⟨h1, h2, h3, ?_, h5⟩
    intro s' hs'
    rw [hs, Option.some_inj] at hs'
    subst hs'
    rw [heq]
    exact h4

/-- Witness for the amended C3 at a concrete matching row. -/
theorem claim_C3_witness :
    searchWhere "milk" ⟨1, "Buy Milk", none, false, "medium", none, none, 0, 0⟩
      = specSearchMatches "milk" ⟨1, "Buy Milk", none, false, "medium", none, none, 0, 0⟩ :=
  (claim_C3_amended ⟨1, 10, "all", none, "createdAt", "desc", some "milk", none⟩ "milk"
    ⟨1, "Buy Milk", none, false, "medium", none, none, 0, 0⟩ rfl (by decide)).1

/-! ## Tag filter versus exact element membership -/

theorem plainTagChar_litChar (c : Char) (h : plainTagChar c = true) : litChar c = true := by
  by_cases h1 : c = '%'
  · subst h1; simp [plainTagChar] at h
  by_cases h2 : c = '_'
  · subst h2; simp [plainTagChar] at h
  by_cases h3 : c = '\\'
  · subst h3; simp [plainTagChar] at h
  simp [litChar, h1, h2, h3]

theorem flatMap_jsonEscape_plain (cs : List Char) (h : cs.all noEscChar = true) :
    cs.flatMap jsonEscapeChar = cs := by
  induction cs with
  | nil => rfl
  | cons c cs' ih =>
    simp only [List.all_cons, Bool.and_eq_true] at h
    have hc : jsonEscapeChar c = [c] := by
      have h1 : ¬ c = '"' := fun hq => by subst hq; simp [noEscChar] at h
      have h2 : ¬ c = '\\' := fun hq => by subst hq; simp [noEscChar] at h
      have h3 : ¬ c.toNat < 32 := by
        intro hlt
        have hcc := h.1
        simp [noEscChar, hlt] at hcc
      have hb : ¬ c = Char.ofNat 8 := fun hq => by subst hq; exact h3 (by decide)
      have ht : ¬ c = Char.ofNat 9 := fun hq => by subst hq; exact h3 (by decide)
      have hn : ¬ c = Char.ofNat 10 := fun hq => by subst hq; exact h3 (by decide)
      have hf : ¬ c = Char.ofNat 12 := fun hq => by subst hq; exact h3 (by decide)
      have hr : ¬ c = Char.ofNat 13 := fun hq => by subst hq; exact h3 (by decide)
      simp [jsonEscapeChar, h1, h2, hb, ht, hn, hf, hr, h3]
    simp [List.flatMap_cons, hc, ih h.2]

theorem jsonEncodeString_plain (e : String) (he : e.toList.all noEscChar = true) :
    jsonEncodeString e = '"' :: e.toList ++ ['"'] := by
  unfold jsonEncodeString
  rw [flatMap_jsonEscape_plain _ he]

/-- Two quote-free blocks closed by a quote agree when the texts agree. -/
theorem quoteHeadEq (t : List Char) (ht : '"' ∉ t) :
    ∀ (e x y : List Char), '"' ∉ e → t ++ '"' :: x = e ++ '"' :: y → t = e ∧ x = y := by
  induction t with
  | nil =>
    intro e x y he h
    cases e with
    | nil =>
      simp only [List.nil_append, List.cons.injEq] at h
      exact ⟨rfl, h.2⟩
    | cons d e' =>
      simp only [List.nil_append, List.cons_append, List.cons.injEq] at h
      exact absurd (h.1.symm ▸ List.mem_cons_self d e') (h.1 ▸ he)
  | cons c t' ih =>
    intro e x y he h
    cases e with
    | nil =>
      simp only [List.cons_append, List.nil_append, List.cons.injEq] at h
      exact absurd (h.1 ▸ List.mem_cons_self c t') (h.1 ▸ ht)
    | cons d e' =>
      simp only [List.cons_append, List.cons.injEq] at h
      obtain ⟨rfl, h2⟩ := h
      have ht' : '"' ∉ t' := fun hm => ht (List.mem_cons_of_mem _ hm)
      have he' : '"' ∉ e' := fun hm => he (List.mem_cons_of_mem _ hm)
      obtain ⟨rfl, rfl⟩ := ih ht' e' x y he' h2
      exact ⟨rfl, rfl⟩

/-- Position of the first quote: an occurrence starting inside a
quote-free block either starts exactly at the block's closing quote or
lies beyond it. -/
theorem quoteSplit (e : List Char) (he : '"' ∉ e) :
    ∀ (pre w z : List Char), pre ++ '"' :: w = e ++ '"' :: z →
      (pre = e ∧ w = z) ∨ ∃ mid, pre = e ++ '"' :: mid ∧ mid ++ '"' :: w = z := by
  induction e with
  | nil =>
    intro pre w z h
    cases pre with
    | nil =>
      simp only [List.nil_append, List.cons.injEq] at h
      exact Or.inl ⟨rfl, h.2⟩
    | cons c pre' =>
      simp only [List.cons_append, List.nil_append, List.cons.injEq] at h
      obtain ⟨rfl, h2⟩ := h
      exact Or.inr ⟨pre', rfl, h2⟩
  | cons d e' ih =>
    intro pre w z h
    cases pre with
    | nil =>
      simp only [List.nil_append, List.cons_append, List.cons.injEq] at h
      exact absurd (h.1 ▸ List.mem_cons_self d e') (h.1 ▸ he)
    | cons c pre' =>
      simp only [List.cons_append, List.cons.injEq] at h
      obtain ⟨rfl, h2⟩ := h
      have he' : '"' ∉ e' := fun hm => he (List.mem_cons_of_mem _ hm)
      rcases ih he' pre' w z h2 with ⟨rfl, rfl⟩ | ⟨mid, rfl, hmid⟩
      · exact Or.inl ⟨rfl, rfl⟩
      · exact Or.inr ⟨mid, rfl, hmid⟩

/-- A quoted occurrence of a quote-free, comma-free, nonempty text inside
the serialized tag array is an exact element. -/
theorem tagOccurrenceMem (t : List Char) (ht : '"' ∉ t) (htc : ',' ∉ t) (hne : t ≠ []) :
    ∀ (tags : List String), (∀ e ∈ tags, e.toList.all noEscChar = true) →
    ∀ pre post, pre ++ '"' :: (t ++ '"' :: post) = jsonEncodeElems tags ++ [']'] →
    ∃ e ∈ tags, e.toList = t := by
  have htlen : 1 ≤ t.length := by
    cases t with
    | nil => exact absurd rfl hne
    | cons c t' => simp
  intro tags
  induction tags with
  | nil =>
    intro _ pre post h
    have := congrArg List.length h
    simp [jsonEncodeElems] at this
    omega
  | cons e rest ih =>
    intro hplain pre post h
    have hplainE : e.toList.all noEscChar = true := hplain e (List.mem_cons_self e rest)
    have heq : '"' ∉ e.toList := by
      intro hm
      have := (List.all_eq_true.1 hplainE) _ hm
      simp [noEscChar] at this
    cases rest with
    | nil =>
      rw [show jsonEncodeElems [e] = jsonEncodeString e from rfl,
        jsonEncodeString_plain e hplainE] at h
      have hr : ('"' :: e.toList ++ ['"']) ++ [']'] = '"' :: (e.toList ++ '"' :: [']']) := by
        simp
      rw [hr] at h
      cases pre with
      | nil =>
        simp only [List.nil_append, List.cons.injEq, true_and] at h
        obtain ⟨rfl, -⟩ := quoteHeadEq t ht e.toList _ _ heq h
        exact ⟨e, List.mem_cons_self e [], rfl⟩
      | cons c pre' =>
        simp only [List.cons_append, List.cons.injEq] at h
        obtain ⟨rfl, h2⟩ := h
        rcases quoteSplit e.toList heq pre' _ _ h2 with ⟨-, heq2⟩ | ⟨mid, -, hmid⟩
        · have := congrArg List.length heq2
          simp at this
          omega
        · have := congrArg List.length hmid
          simp at this
          omega
    | cons f rest' =>
      rw [show jsonEncodeElems (e :: f :: rest')
            = jsonEncodeString e ++ ',' :: jsonEncodeElems (f :: rest') from rfl,
        jsonEncodeString_plain e hplainE] at h
      have hr : ('"' :: e.toList ++ ['"'] ++ ',' :: jsonEncodeElems (f :: rest')) ++ [']']
          = '"' :: (e.toList ++ '"' :: (',' :: (jsonEncodeElems (f :: rest') ++ [']']))) := by
        simp
      rw [hr] at h
      cases pre with
      | nil =>
        simp only [List.nil_append, List.cons.injEq, true_and] at h
        obtain ⟨rfl, -⟩ := quoteHeadEq t ht e.toList _ _ heq h
        exact ⟨e, List.mem_cons_self e _, rfl⟩
      | cons c pre' =>
        simp only [List.cons_append, List.cons.injEq] at h
        obtain ⟨rfl, h2⟩ := h
        rcases quoteSplit e.toList heq pre' _ _ h2 with ⟨-, heq2⟩ | ⟨mid, -, hmid⟩
        · cases t with
          | nil => exact absurd rfl hne
          | cons c0 t0 =>
            simp only [List.cons_append, List.cons.injEq] at heq2
            exact absurd (heq2.1 ▸ List.mem_cons_self c0 t0) (heq2.1 ▸ htc)
        · cases mid with
          | nil =>
            simp only [List.nil_append, List.cons.injEq] at hmid
            exact absurd hmid.1 (by decide)
          | cons m0 mid' =>
            simp only [List.cons_append, List.cons.injEq] at hmid
            obtain ⟨rfl, hmid2⟩ := hmid
            have hplain' : ∀ e' ∈ f :: rest', e'.toList.all noEscChar = true :=
              fun e' he' => hplain e' (List.mem_cons_of_mem _ he')
            obtain ⟨e', he', heq'⟩ := ih hplain' mid' post hmid2
            exact ⟨e', List.mem_cons_of_mem _ he', heq'⟩

/-- An exact element always has a quoted occurrence in the serialized
tag array. -/
theorem memTagOccurrence (t : List Char) :
    ∀ (tags : List String), (∀ e ∈ tags, e.toList.all noEscChar = true) →
    (∃ e ∈ tags, e.toList = t) →
    ∃ pre post, jsonEncodeElems tags ++ [']'] = pre ++ '"' :: (t ++ '"' :: post) := by
  intro tags
  induction tags with
  | nil =>
    rintro _ ⟨e, he, -⟩
    exact absurd he (List.not_mem_nil e)
  | cons e rest ih =>
    rintro hplain ⟨e', he', heq'⟩
    have hplainE : e.toList.all noEscChar = true := hplain e (List.mem_cons_self e rest)
    rcases List.mem_cons.1 he' with rfl | hmem
    · cases rest with
      | nil =>
        refine ⟨[], [']'], ?_⟩
        simp [show jsonEncodeElems [e'] = jsonEncodeString e' from rfl,
          jsonEncodeString_plain e' hplainE, heq']
        exact heq'
      | cons f rest' =>
        refine ⟨[], ',' :: (jsonEncodeElems (f :: rest') ++ [']']), ?_⟩
        simp [show jsonEncodeElems (e' :: f :: rest')
              = jsonEncodeString e' ++ ',' :: jsonEncodeElems (f :: rest') from rfl,
          jsonEncodeString_plain e' hplainE, heq']
        exact heq'
    · cases rest with
      | nil => exact absurd hmem (List.not_mem_nil e')
      | cons f rest' =>
        have hplain' : ∀ x ∈ f :: rest', x.toList.all noEscChar = true :=
          fun x hx => hplain x (List.mem_cons_of_mem _ hx)
        obtain ⟨pre, post, hocc⟩ := ih hplain' ⟨e', hmem, heq'⟩
        refine ⟨jsonEncodeString e ++ ',' :: pre, post, ?_⟩
        rw [show jsonEncodeElems (e :: f :: rest')
              = jsonEncodeString e ++ ',' :: jsonEncodeElems (f :: rest') from rfl]
        simp only [List.append_assoc, List.cons_append]
        rw [hocc]

/-- The tag filter `tags LIKE %"tag"%` over the serialized array agrees
with exact element membership, for tag queries and elements made of
unambiguous characters. -/
theorem likeTag_iff_mem (tag : String) (tags : List String)
    (hne : tag.toList ≠ [])
    (htag : tag.toList.all plainTagChar = true)
    (helems : tags.all (fun e => e.toList.all noEscChar) = true) :
    (likeM (tagPattern tag) (serializeTags tags).toList = true ↔ tag ∈ tags) := by
  have helems' : ∀ e ∈ tags, e.toList.all noEscChar = true := List.all_eq_true.1 helems
  have hq : '"' ∉ tag.toList := by
    intro hm
    have := (List.all_eq_true.1 htag) _ hm
    simp [plainTagChar] at this
  have hc : ',' ∉ tag.toList := by
    intro hm
    have := (List.all_eq_true.1 htag) _ hm
    simp [plainTagChar] at this
  have hshape : tagPattern tag = '%' :: (('"' :: tag.toList ++ ['"']) ++ ['%']) := by
    simp [tagPattern]
  have hlit : isLit ('"' :: tag.toList ++ ['"']) = true := by
    simp only [isLit, List.all_append, List.all_cons, Bool.and_eq_true]
    refine ⟨⟨by decide, ?_⟩, by decide⟩
    exact List.all_eq_true.2 fun c hcm =>
      plainTagChar_litChar c ((List.all_eq_true.1 htag) c hcm)
  have hS : (serializeTags tags).toList = '[' :: jsonEncodeElems tags ++ [']'] := rfl
  rw [hshape, likeM_wrap _ hlit, hS]
  constructor
  · rintro ⟨pre, post, hocc⟩
    cases pre with
    | nil =>
      simp only [List.nil_append, List.cons_append, List.cons.injEq] at hocc
      exact absurd hocc.1 (by decide)
    | cons c pre' =>
      simp only [List.cons_append, List.cons.injEq] at hocc
      obtain ⟨-, hocc2⟩ := hocc
      have hocc3 : pre' ++ '"' :: (tag.toList ++ '"' :: post) = jsonEncodeElems tags ++ [']'] := by
        rw [eq_comm] at hocc2
        simpa [List.append_assoc] using hocc2
      obtain ⟨e, he, heqt⟩ := tagOccurrenceMem tag.toList hq hc hne tags helems' pre' post hocc3
      have : e = tag := String.toList_inj.1 heqt
      exact this ▸ he
  · intro hmem
    obtain ⟨pre, post, hocc⟩ := memTagOccurrence tag.toList tags helems' ⟨tag, hmem, rfl⟩
    refine ⟨'[' :: pre, post, ?_⟩
    rw [List.cons_append, hocc]
    simp

/-- Counterexample to C4 as stated: the query tag `a%b` is not an element
of the row's tag collection `["axxb"]`, yet the row satisfies the tag
predicate, because `%` acts as a LIKE wildcard inside the interpolated
pattern over the serialized representation. -/
theorem claim_C4_counterexample :
    tagWhere "a%b" ⟨1, "x", none, false, "medium", none,
        some (serializeTags ["axxb"]), 0, 0⟩ = true
    ∧ "a%b" ∉ (["axxb"] : List String) := by
  decide

/-- C4 amended: for a tag query that is nonempty and free of LIKE
metacharacters, quotes and commas, over rows whose stored tag elements
contain no quote or backslash, the tag predicate holds iff the row's tag
collection contains the query as an exact element. -/
theorem claim_C4_amended (tag : String) (tags : List String) (row : Todo)
    (hrow : row.tags = some (serializeTags tags))
    (hne : tag.toList ≠ [])
    (htag : tag.toList.all plainTagChar = true)
    (helems : tags.all (fun e => e.toList.all noEscChar) = true) :
    (tagWhere tag row = true ↔ tag ∈ tags) := by
  unfold tagWhere
  rw [hrow]
  exact likeTag_iff_mem tag tags hne htag helems

/-- Witness for the amended C4 at a concrete row tagged work/home. -/
theorem claim_C4_witness :
    tagWhere "work" ⟨1, "x", none, false, "medium", none,
        some (serializeTags ["work", "home"]), 0, 0⟩ = true
    ↔ "work" ∈ (["work", "home"] : List String) :=
  claim_C4_amended "work" ["work", "home"]
    ⟨1, "x", none, false, "medium", none, some (serializeTags ["work", "home"]), 0, 0⟩
    rfl (by decide) (by decide) (by decide)

/-! ## Validation middleware properties -/

/-- On failure, the reported list is exactly the concatenation of every
field checker's violations (and is nonempty). -/
theorem validateQuery_error (raw : RawReq) (es : List FieldError)
    (h : validateQuery raw = .error es) :
    es = errsOf (checkPage raw) ++ errsOf (checkLimit raw) ++ errsOf (checkStatus raw)
        ++ errsOf (checkPriorityQ raw) ++ errsOf (checkSortBy raw)
        ++ errsOf (checkSortOrder raw) ++ errsOf (checkSearch raw) ++ errsOf (checkTag raw)
    ∧ es ≠ [] := by
  unfold validateQuery at h
  split at h
  · exact absurd h (by simp)
  · rename_i r1 r2 r3 r4 r5 r6 r7 r8 hnotall
    simp only [Except.error.injEq] at h
    subst h
    constructor
    · rfl
    · rcases hp : checkPage raw with e1 | v1
      · simp [errsOf, hp]
      rcases hl : checkLimit raw with e2 | v2
      · simp [errsOf, hl]
      rcases hs : checkStatus raw with e3 | v3
      · simp [errsOf, hs]
      rcases hpr : checkPriorityQ raw with e4 | v4
      · simp [errsOf, hpr]
      rcases hsb : checkSortBy raw with e5 | v5
      · simp [errsOf, hsb]
      rcases hso : checkSortOrder raw with e6 | v6
      · simp [errsOf, hso]
      rcases hse : checkSearch raw with e7 | v7
      · simp [errsOf, hse]
      rcases htg : checkTag raw with e8 | v8
      · simp [errsOf, htg]
      exact absurd (hnotall v1 v2 v3 v4 v5 v6 v7 v8 hp hl hs hpr hsb hso hse htg) (by simp)

theorem rawGet_cons_ne (k : String) (v : String) (raw : RawReq) (f : String)
    (h : ¬ f = k) : rawGet ((k, v) :: raw) f = rawGet raw f := by
  simp only [rawGet, List.lookup]
  rw [show (f == k) = false from beq_eq_false_iff_ne.2 h]

/-- C5: on any violating raw request the validator reports every field's
violation at once, the response is the 400 validation response carrying
exactly those violations, the domain operation is never consulted (the
response does not depend on the table, and no normalized value with
defaults is produced); a field unknown to the schema never changes the
outcome and never produces a violation of its own. -/
theorem claim_C5 (raw : RawReq) :
    (∀ e es, validateQuery raw = .error es →
      ((checkPage raw = .error e → e ∈ es)
        ∧ (checkLimit raw = .error e → e ∈ es)
        ∧ (checkStatus raw = .error e → e ∈ es)
        ∧ (checkPriorityQ raw = .error e → e ∈ es)
        ∧ (checkSortBy raw = .error e → e ∈ es)
        ∧ (checkSortOrder raw = .error e → e ∈ es)
        ∧ (checkSearch raw = .error e → e ∈ es)
        ∧ (checkTag raw = .error e → e ∈ es)))
    ∧ (∀ es, validateQuery raw = .error es →
        es ≠ [] ∧ ∀ table table' : List Todo,
          handleListTodos raw table = .badRequest es
            ∧ handleListTodos raw table = handleListTodos raw table')
    ∧ (∀ k v, k ∉ knownQueryKeys → validateQuery ((k, v) :: raw) = validateQuery raw) := by
  refine ⟨?_, ?_, ?_⟩
  · intro e es h
    obtain ⟨hchar, -⟩ := validateQuery_error raw es h
    subst hchar
    refine ⟨?_, ?_, ?_, ?_, ?_, ?_, ?_, ?_⟩ <;>
      (intro hp; simp [errsOf, hp])
  · intro es h
    refine ⟨(validateQuery_error raw es h).2, ?_⟩
    intro table table'
    constructor
    · unfold handleListTodos
      rw [h]
    · unfold handleListTodos
      rw [h]
  · intro k v hk
    have hne : ∀ f : String, f ∈ knownQueryKeys → ¬ f = k := by
      intro f hf hfk
      exact hk (hfk ▸ hf)
    have h1 : checkPage ((k, v) :: raw) = checkPage raw := by
      unfold checkPage
      rw [rawGet_cons_ne k v raw "page" (hne "page" (by decide))]
    have h2 : checkLimit ((k, v) :: raw) = checkLimit raw := by
      unfold checkLimit
      rw [rawGet_cons_ne k v raw "limit" (hne "limit" (by decide))]
    have h3 : checkStatus ((k, v) :: raw) = checkStatus raw := by
      unfold checkStatus
      rw [rawGet_cons_ne k v raw "status" (hne "status" (by decide))]
    have h4 : checkPriorityQ ((k, v) :: raw) = checkPriorityQ raw := by
      unfold checkPriorityQ
      rw [rawGet_cons_ne k v raw "priority" (hne "priority" (by decide))]
    have h5 : checkSortBy ((k, v) :: raw) = checkSortBy raw := by
      unfold checkSortBy
      rw [rawGet_cons_ne k v raw "sortBy" (hne "sortBy" (by decide))]
    have h6 : checkSortOrder ((k, v) :: raw) = checkSortOrder raw := by
      unfold checkSortOrder
      rw [rawGet_cons_ne k v raw "sortOrder" (hne "sortOrder" (by decide))]
    have h7 : checkSearch ((k, v) :: raw) = checkSearch raw := by
      unfold checkSearch
      rw [rawGet_cons_ne k v raw "search" (hne "search" (by decide))]
    have h8 : checkTag ((k, v) :: raw) = checkTag raw := by
      unfold checkTag
      rw [rawGet_cons_ne k v raw "tag" (hne "tag" (by decide))]
    unfold validateQuery
    rw [h1, h2, h3, h4, h5, h6, h7, h8]

/-- Witness for C5 on a request with two violations and an unknown key. -/
theorem claim_C5_witness :
    (⟨"page", "Page must be at least 1"⟩ : FieldError)
      ∈ [(⟨"page", "Page must be at least 1"⟩ : FieldError),
         ⟨"limit", "Limit cannot exceed 100"⟩] := by
  have h := claim_C5 [("page", "0"), ("limit", "200"), ("bogus", "1")]
  have hval : validateQuery [("page", "0"), ("limit", "200"), ("bogus", "1")]
      = .error [⟨"page", "Page must be at least 1"⟩, ⟨"limit", "Limit cannot exceed 100"⟩] := by
    rfl
  exact ((h.1 ⟨"page", "Page must be at least 1"⟩ _ hval).1) (by rfl)

/-! ## Creation and toggle properties -/

/-- C6: every entity created from a validated payload has
`completed = false` unless the payload set it, `priority = medium` unless
the payload set it, equal creation timestamps, and an id different from
the id of every previously created entity (and the store stays
well-formed). -/
theorem claim_C6 (p : CreatePayload) (now : Nat) (db : DB) (hwf : dbWf db) :
    (createTodoService (applyCreateDefaults p) now db).1.completed = p.completed.getD false
    ∧ (createTodoService (applyCreateDefaults p) now db).1.priority = p.priority.getD "medium"
    ∧ (createTodoService (applyCreateDefaults p) now db).1.createdAt
        = (createTodoService (applyCreateDefaults p) now db).1.updatedAt
    ∧ (∀ t ∈ db.rows, (createTodoService (applyCreateDefaults p) now db).1.id ≠ t.id)
    ∧ dbWf (createTodoService (applyCreateDefaults p) now db).2 := by
  refine ⟨?_, ?_, rfl, ?_, ?_⟩
  · simp [createTodoService, applyCreateDefaults, beforeInsert]
  · simp [createTodoService, applyCreateDefaults, beforeInsert]
  · intro t ht
    have := hwf t ht
    simp only [createTodoService, beforeInsert]
    omega
  · intro t ht
    simp only [createTodoService, beforeInsert] at ht ⊢
    rcases List.mem_append.1 ht with hold | hnew
    · exact Nat.lt_succ_of_lt (hwf t hold)
    · simp only [List.mem_singleton] at hnew
      subst hnew
      exact Nat.lt_succ_self _

/-- Witness for C6: creating into an empty store. -/
theorem claim_C6_witness :
    (createTodoService (applyCreateDefaults ⟨"Buy milk", none, none, none, none, none⟩) 5
        ⟨[], 0⟩).1.completed = false
    ∧ (createTodoService (applyCreateDefaults ⟨"Buy milk", none, none, none, none, none⟩) 5
        ⟨[], 0⟩).1.priority = "medium" := by
  have h := claim_C6 ⟨"Buy milk", none, none, none, none, none⟩ 5 ⟨[], 0⟩
    (by intro r hr; exact absurd hr (List.not_mem_nil r))
  exact ⟨h.1, h.2.1⟩

/-- The result of one toggle on the fetched row: negated `completed`,
refreshed `updatedAt` (the row `patchAndFetchById` returns). -/
def toggledOnce (t : Todo) (now : Nat) : Todo :=
  beforeUpdate now { t with completed := !t.completed }

theorem findById_patchRows (id now : Nat) (f : Todo → Todo)
    (hf : ∀ r, (f r).id = r.id) (rows : List Todo) :
    findById id (patchRows id f now rows)
      = (findById id rows).map
          (fun r => if r.id == id then beforeUpdate now (f r) else r) := by
  unfold findById patchRows
  rw [List.find?_map]
  have hfun : ((fun t : Todo => t.id == id)
        ∘ fun t => if t.id == id then beforeUpdate now (f t) else t)
      = (fun t : Todo => t.id == id) := by
    funext r
    by_cases h : r.id == id
    · simp only [Function.comp_apply, if_pos h, beforeUpdate]
      simp only [beq_iff_eq] at h ⊢
      rw [hf r, h]
    · have hne : ¬ r.id = id := by simpa using h
      simp [Function.comp_apply, if_neg hne, hne]
  rw [hfun]

/-- C7: toggling an existing entity twice (at strictly increasing clock
times, each after the entity's last write) returns the entity to its
original `completed` value, `updatedAt` strictly increases on each of the
two toggles; toggling an id with no matching row fails with NotFound and
changes no row. -/
theorem claim_C7 (id : Nat) (t : Todo) (db : DB) (t1 t2 : Nat)
    (hfind : findById id db.rows = some t)
    (h0 : t.updatedAt < t1) (h12 : t1 < t2) :
    (toggleTodoStatus id t1 db).1 = .ok (toggledOnce t t1)
    ∧ (toggleTodoStatus id t2 (toggleTodoStatus id t1 db).2).1
        = .ok (toggledOnce (toggledOnce t t1) t2)
    ∧ (toggledOnce (toggledOnce t t1) t2).completed = t.completed
    ∧ t.updatedAt < (toggledOnce t t1).updatedAt
    ∧ (toggledOnce t t1).updatedAt < (toggledOnce (toggledOnce t t1) t2).updatedAt
    ∧ (∀ db' : DB, findById id db'.rows = none →
        toggleTodoStatus id t1 db' = (.error ⟨404, "Todo not found"⟩, db')) := by
  have hp : (t.id == id) = true :=
    List.find?_some (p := fun r : Todo => r.id == id) (l := db.rows) (a := t) hfind
  have hdb1 : (toggleTodoStatus id t1 db).2
      = { db with rows := patchRows id (fun r => { r with completed := !t.completed }) t1 db.rows } := by
    unfold toggleTodoStatus
    rw [hfind]
  have hfind2 : findById id
      (patchRows id (fun r => { r with completed := !t.completed }) t1 db.rows)
      = some (toggledOnce t t1) := by
    rw [findById_patchRows id t1 (fun r => { r with completed := !t.completed })
      (fun r => rfl) db.rows, hfind]
    show some (if t.id == id then beforeUpdate t1 { t with completed := !t.completed } else t)
      = some (toggledOnce t t1)
    rw [if_pos hp]
    rfl
  have hfind2' : findById id
      ({ db with rows := patchRows id (fun r => { r with completed := !t.completed }) t1 db.rows } : DB).rows
      = some (toggledOnce t t1) := hfind2
  refine ⟨?_, ?_, ?_, ?_, ?_, ?_⟩
  · unfold toggleTodoStatus
    rw [hfind]
    rfl
  · rw [hdb1]
    unfold toggleTodoStatus
    rw [hfind2']
    rfl
  · simp [toggledOnce, beforeUpdate]
  · simpa [toggledOnce, beforeUpdate] using h0
  · simpa [toggledOnce, beforeUpdate] using h12
  · intro db' hnone
    unfold toggleTodoStatus
    rw [hnone]

/-- Witness for C7 at a one-row store. -/
theorem claim_C7_witness :
    (toggleTodoStatus 7 1 ⟨[⟨7, "x", none, false, "medium", none, none, 0, 0⟩], 8⟩).1
      = .ok (toggledOnce ⟨7, "x", none, false, "medium", none, none, 0, 0⟩ 1) :=
  (claim_C7 7 ⟨7, "x", none, false, "medium", none, none, 0, 0⟩
    ⟨[⟨7, "x", none, false, "medium", none, none, 0, 0⟩], 8⟩ 1 2 rfl
    (by decide) (by decide)).1

/-! ## Bulk operation properties -/

theorem length_filter_split (ids : List Nat) (rows : List Todo) :
    rows.length - (rows.filter (fun t => !ids.contains t.id)).length
      = (rows.filter (fun t => ids.contains t.id)).length := by
  induction rows with
  | nil => rfl
  | cons r rs ih =>
    have hle : (rs.filter (fun t => !ids.contains t.id)).length ≤ rs.length :=
      List.length_filter_le _ _
    by_cases h : ids.contains r.id
    · simp only [List.filter_cons, h, Bool.not_true, Bool.false_eq_true, if_false, if_true,
        List.length_cons]
      omega
    · have h' : ids.contains r.id = false := by simpa using h
      simp only [List.filter_cons, h', Bool.not_false, Bool.false_eq_true, if_false, if_true,
        List.length_cons]
      omega

/-- C8: a bulk update request must carry 1–50 ids and an update payload
satisfying the single-entity update contract (at least one field), or
validation fails with a nonempty violation list; when valid, the same
patch is applied (with refreshed `updatedAt`) to exactly the rows whose
id is in the set, the returned count equals the number of matching rows
(ids with no matching row are silently excluded), and bulk delete of a
1–50 id set removes exactly the matching rows and returns the count
removed — a partial match is a normal successful outcome, never an
error. -/
theorem claim_C8 (ids : List Nat) (u : UpdatePayload) (now : Nat) (db : DB) :
    (∀ r, validateBulkUpdate ids u = .ok r →
      1 ≤ ids.length ∧ ids.length ≤ 50 ∧ updateHasField u = true)
    ∧ (ids.length = 0 ∨ ids.length > 50 ∨ updateHasField u = false →
        ∃ es, validateBulkUpdate ids u = .error es ∧ es ≠ [])
    ∧ (∀ r, validateBulkDelete ids = .ok r → 1 ≤ ids.length ∧ ids.length ≤ 50)
    ∧ (ids.length = 0 ∨ ids.length > 50 →
        ∃ es, validateBulkDelete ids = .error es ∧ es ≠ [])
    ∧ (bulkUpdateTodos ids u now db).1
        = (db.rows.filter (fun t => ids.contains t.id)).length
    ∧ (bulkUpdateTodos ids u now db).2.rows.length = db.rows.length
    ∧ (∀ i : Nat, (bulkUpdateTodos ids u now db).2.rows[i]?
        = (db.rows[i]?).map (fun t =>
            if ids.contains t.id then beforeUpdate now (applyPatch u t) else t))
    ∧ (bulkDeleteTodos ids db).1 = (db.rows.filter (fun t => ids.contains t.id)).length
    ∧ (∀ t : Todo, t ∈ (bulkDeleteTodos ids db).2.rows
        ↔ (t ∈ db.rows ∧ ids.contains t.id = false)) := by
  refine ⟨?_, ?_, ?_, ?_, rfl, ?_, ?_, ?_, ?_⟩
  · intro r h
    unfold validateBulkUpdate at h
    by_cases hnil : (if ids.length < 1 then
          [(⟨"ids", "At least one ID is required"⟩ : FieldError)] else [])
        ++ (if ids.length > 50 then [⟨"ids", "Cannot update more than 50 todos at once"⟩] else [])
        ++ validateUpdate u = []
    · simp only [List.append_eq_nil] at hnil
      obtain ⟨⟨h1, h2⟩, h3⟩ := hnil
      refine ⟨?_, ?_, ?_⟩
      · by_cases hc : ids.length < 1
        · rw [if_pos hc] at h1
          exact absurd h1 (by simp)
        · omega
      · by_cases hc : ids.length > 50
        · rw [if_pos hc] at h2
          exact absurd h2 (by simp)
        · omega
      · unfold validateUpdate at h3
        simp only [List.append_eq_nil] at h3
        by_cases hf : updateHasField u
        · exact hf
        · rw [if_neg hf] at h3
          exact absurd h3.2 (by simp)
    · rw [if_neg hnil] at h
      exact absurd h (by simp)
  · intro hbad
    have hL : (if ids.length < 1 then
          [(⟨"ids", "At least one ID is required"⟩ : FieldError)] else [])
        ++ (if ids.length > 50 then [⟨"ids", "Cannot update more than 50 todos at once"⟩] else [])
        ++ validateUpdate u ≠ [] := by
      intro hnil
      simp only [List.append_eq_nil] at hnil
      obtain ⟨⟨h1, h2⟩, h3⟩ := hnil
      rcases hbad with hb | hb | hb
      · rw [if_pos (by omega)] at h1
        exact absurd h1 (by simp)
      · rw [if_pos (by omega)] at h2
        exact absurd h2 (by simp)
      · unfold validateUpdate at h3
        simp only [List.append_eq_nil] at h3
        rw [if_neg (by simp [hb])] at h3
        exact absurd h3.2 (by simp)
    refine ⟨_, ?_, hL⟩
    unfold validateBulkUpdate
    rw [if_neg hL]
  · intro r h
    unfold validateBulkDelete at h
    by_cases hnil : (if ids.length < 1 then
          [(⟨"ids", "At least one ID is required"⟩ : FieldError)] else [])
        ++ (if ids.length > 50 then [⟨"ids", "Cannot delete more than 50 todos at once"⟩] else [])
        = []
    · simp only [List.append_eq_nil] at hnil
      obtain ⟨h1, h2⟩ := hnil
      constructor
      · by_cases hc : ids.length < 1
        · rw [if_pos hc] at h1
          exact absurd h1 (by simp)
        · omega
      · by_cases hc : ids.length > 50
        · rw [if_pos hc] at h2
          exact absurd h2 (by simp)
        · omega
    · rw [if_neg hnil] at h
      exact absurd h (by simp)
  · intro hbad
    have hL : (if ids.length < 1 then
          [(⟨"ids", "At least one ID is required"⟩ : FieldError)] else [])
        ++ (if ids.length > 50 then [⟨"ids", "Cannot delete more than 50 todos at once"⟩] else [])
        ≠ [] := by
      intro hnil
      simp only [List.append_eq_nil] at hnil
      obtain ⟨h1, h2⟩ := hnil
      rcases hbad with hb | hb
      · rw [if_pos (by omega)] at h1
        exact absurd h1 (by simp)
      · rw [if_pos (by omega)] at h2
        exact absurd h2 (by simp)
    refine ⟨_, ?_, hL⟩
    unfold validateBulkDelete
    rw [if_neg hL]
  · show (db.rows.map (fun t =>
        if ids.contains t.id then beforeUpdate now (applyPatch u t) else t)).length
      = db.rows.length
    simp
  · intro i
    show (db.rows.map (fun t =>
        if ids.contains t.id then beforeUpdate now (applyPatch u t) else t))[i]?
      = (db.rows[i]?).map (fun t =>
          if ids.contains t.id then beforeUpdate now (applyPatch u t) else t)
    simp
  · show db.rows.length - (db.rows.filter (fun t => !ids.contains t.id)).length
      = (db.rows.filter (fun t => ids.contains t.id)).length
    exact length_filter_split ids db.rows
  · intro t
    show t ∈ db.rows.filter (fun t => !ids.contains t.id) ↔ _
    rw [List.mem_filter]
    simp

/-! ## Error pipeline properties -/

/-- Counterexample to C9 as stated: a store uniqueness violation raised
during todo creation reaches the caller as the generic 500 internal
error, not as the 400 Duplicate mapping, because the service catch-all
re-throws every insert failure as `ApiError(500, 'Failed to create
todo')` before the error middleware can inspect the driver fields. -/
theorem claim_C9_counterexample :
    createTodoRequest (.error (duplicateKeyError "ER_DUP_ENTRY: Duplicate entry"))
      = .error { status := 500, code := "INTERNAL_SERVER_ERROR", message := "Failed to create todo" }
    ∧ (500 : Nat) ≠ 400 := by
  constructor
  · rfl
  · decide

/-- C9 amended: a store error raised inside `createTodo` is always
re-expressed as the generic 500 response with the fixed message (so the
store's native shape is never leaked), independently of the driver error;
only an error reaching the error middleware directly with sqlState 23000
or errno 1062 (and no connection/JWT markers) is mapped to the
400 Duplicate response. -/
theorem claim_C9_amended (e : JsErr)
    (hdup : e.code = some "23000" ∨ e.errno = some 1062)
    (hc1 : ¬ e.code = some "ECONNREFUSED") (hc2 : ¬ e.code = some "ENOTFOUND")
    (hn1 : ¬ e.name = "JsonWebTokenError") (hn2 : ¬ e.name = "TokenExpiredError") :
    createTodoRequest (.error e)
      = .error { status := 500, code := "INTERNAL_SERVER_ERROR", message := "Failed to create todo" }
    ∧ errorMiddleware e
      = { status := 400, code := "BAD_REQUEST", message := "Duplicate field value entered" } := by
  constructor
  · rfl
  · have hc : ¬(e.code = some "ECONNREFUSED" ∨ e.code = some "ENOTFOUND") := by
      rintro (h | h)
      · exact hc1 h
      · exact hc2 h
    unfold errorMiddleware handleError
    simp only [if_pos hdup, if_neg hc, if_neg hn1, if_neg hn2]
    rfl

/-- Witness for the amended C9 at a concrete duplicate-key driver
error. -/
theorem claim_C9_witness :
    errorMiddleware (duplicateKeyError "ER_DUP_ENTRY: Duplicate entry")
      = { status := 400, code := "BAD_REQUEST", message := "Duplicate field value entered" } :=
  (claim_C9_amended (duplicateKeyError "ER_DUP_ENTRY: Duplicate entry")
    (Or.inl rfl) (by simp [duplicateKeyError]) (by simp [duplicateKeyError])
    (by simp [duplicateKeyError]) (by simp [duplicateKeyError])).2

/-! ## Due-soon properties -/

/-- C10: every row returned by the due-soon query has a present dueDate
(a pending row with an absent dueDate is never returned, for every value
of `days`), is pending, and its dueDate lies within the cutoff. -/
theorem claim_C10 (days now : Nat) (db : DB) (t : Todo)
    (hmem : t ∈ getTodosDueSoon days now db) :
    t.dueDate.isSome = true
    ∧ t.completed = false
    ∧ (∀ d, t.dueDate = some d → d ≤ now + days * msPerDay) := by
  unfold getTodosDueSoon findDueSoon at hmem
  rw [List.mem_mergeSort, List.mem_filter] at hmem
  obtain ⟨-, hcond⟩ := hmem
  simp only [Bool.and_eq_true, Bool.not_eq_true'] at hcond
  obtain ⟨hdue, hcomp⟩ := hcond
  cases hd : t.dueDate with
  | none =>
    rw [hd] at hdue
    exact absurd hdue (by simp)
  | some d =>
    rw [hd] at hdue
    simp only [decide_eq_true_eq] at hdue
    refine ⟨by simp [hd], hcomp, ?_⟩
    intro d' hd'
    injection hd' with h
    exact h ▸ hdue

/-- Witness for C10 at a one-row store whose row is due in one day. -/
theorem claim_C10_witness :
    (⟨1, "x", none, false, "medium", some 5, none, 0, 0⟩ : Todo).dueDate.isSome = true := by
  have h := claim_C10 1 0 ⟨[⟨1, "x", none, false, "medium", some 5, none, 0, 0⟩], 2⟩
    ⟨1, "x", none, false, "medium", some 5, none, 0, 0⟩ ?_
  · exact h.1
  · unfold getTodosDueSoon findDueSoon
    rw [List.mem_mergeSort, List.mem_filter]
    refine ⟨by decide, by decide⟩
